import Mathlib

/-!
Verification development for the gh-proxy-local converter and streaming
re-emitters.  The Go source operates on dynamically typed JSON values
(`map[string]interface{}`, `[]interface{}`), which we embed as an inductive
`Json` type.  Go type assertions `v, ok := x.(T)` become `Option`-returning
accessors; a hard assertion `x.(T)` (which panics on failure) makes the
embedding of the enclosing function return `Option`, with `none` modelling
the panic.  Go `json.Marshal` of already-unmarshalled values is embedded by
`render` (our objects keep field order; Go maps marshal with sorted keys,
which coincides on the single-field objects any theorem below evaluates).
Calls to `uuid.New().String()` are embedded by an explicit id supply
`ids : Nat -> String` threaded through a counter, and `json.Unmarshal` of a
tool-call argument string by an abstract parser argument
`parse : String -> Option Json` (returning the parsed value, `none` on error).
-/

inductive Json where
  | null
  | bool (b : Bool)
  | num (n : Int)
  | str (s : String)
  | arr (xs : List Json)
  | obj (fields : List (String × Json))

namespace Json

/-- Field lookup on an object: first binding wins, `none` on non-objects
(a Go `nil` map lookup and a missing key both yield the nil interface). -/
def findField : List (String × Json) → String → Option Json
  | [], _ => none
  | (k, v) :: rest, key => if k = key then some v else findField rest key

def get : Json → String → Option Json
  | .obj fs, key => findField fs key
  | _, _ => none

end Json

/-- Go `v, _ := m[k].(string)` : zero value `""` when missing or not a string. -/
def goStr (j : Json) (k : String) : String :=
  match j.get k with
  | some (.str s) => s
  | _ => ""

/-- Go `v, ok := m[k].(string)` : `some` only when present and a string. -/
def goStrOk (j : Json) (k : String) : Option String :=
  match j.get k with
  | some (.str s) => some s
  | _ => none

/-- Go `v, _ := m[k].(float64)` followed by `int(v)`; JSON numbers are
modelled as integers, on which the Go truncation is the identity. -/
def goNum (j : Json) (k : String) : Int :=
  match j.get k with
  | some (.num n) => n
  | _ => 0

/-- Go `v, ok := m[k].(float64)`. -/
def goNumOk (j : Json) (k : String) : Option Int :=
  match j.get k with
  | some (.num n) => some n
  | _ => none

/-- Go `v, _ := m[k].(map[string]interface{})` : a failed assertion leaves a
nil map whose every lookup misses, observationally an empty object. -/
def goObj (j : Json) (k : String) : Json :=
  match j.get k with
  | some (.obj fs) => .obj fs
  | _ => .obj []

/-- Go `v, ok := m[k].(map[string]interface{})`. -/
def goObjOk (j : Json) (k : String) : Option Json :=
  match j.get k with
  | some (.obj fs) => some (.obj fs)
  | _ => none

/-- Go `v, _ := m[k].([]interface{})` : nil slice on failure, i.e. `[]`. -/
def goArr (j : Json) (k : String) : List Json :=
  match j.get k with
  | some (.arr xs) => xs
  | _ => []

/-- Go `v, ok := m[k].([]interface{})`. -/
def goArrOk (j : Json) (k : String) : Option (List Json) :=
  match j.get k with
  | some (.arr xs) => some xs
  | _ => none

/-- Go hard assertion `x.(map[string]interface{})` : `none` models the panic. -/
def asObj : Json → Option Json
  | .obj fs => some (.obj fs)
  | _ => none

/-- Minimal JSON string quoting, as produced by Go `json.Marshal` on the
escape-free strings every theorem below evaluates. -/
def quoteStr (s : String) : String :=
  "\"" ++ s ++ "\""

mutual

/-- Embedding of Go `json.Marshal` on unmarshalled values. -/
def render : Json → String
  | .null => "null"
  | .bool b => if b then "true" else "false"
  | .num n => toString n
  | .str s => quoteStr s
  | .arr xs => "[" ++ renderArr xs ++ "]"
  | .obj fs => "\x7b" ++ renderFields fs ++ "\x7d"

def renderArr : List Json → String
  | [] => ""
  | [x] => render x
  | x :: y :: xs => render x ++ "," ++ renderArr (y :: xs)

def renderFields : List (String × Json) → String
  | [] => ""
  | [(k, v)] => quoteStr k ++ ":" ++ render v
  | (k, v) :: f :: fs => quoteStr k ++ ":" ++ render v ++ "," ++ renderFields (f :: fs)

end

/-- A `{role, content}` message object, the shape built throughout the
converter. -/
def mkMsg (role : String) (content : Json) : Json :=
  .obj [("role", .str role), ("content", content)]

def textPart (s : String) : Json :=
  .obj [("type", .str "text"), ("text", .str s)]

def imageUrlPart (url : String) : Json :=
  .obj [("type", .str "image_url"), ("image_url", .obj [("url", .str url)])]

/-- converter.extractTextContent: flatten a tool_result content value to a
string (string passthrough; list items that are text blocks or bare strings
joined with newlines; otherwise the marshalled JSON; `""` for nil). -/
def extractTextContent (content : Json) : String :=
  match content with
  | .null => ""
  | .str s => s
  | .arr items =>
    let parts := items.filterMap fun item =>
      match item with
      | .obj _ =>
        match item.get "type" with
        | some (.str "text") => goStrOk item "text"
        | _ => none
      | .str s => some s
      | _ => none
    if parts.isEmpty then render (.arr items)
    else String.intercalate "\n" parts
  | j => render j

/-- The per-block accumulator of ConvertAnthropicToCopilotMessages' inner
loop: content parts, tool calls, tool results (as `(tool_call_id, content)`
pairs, the only two fields the source ever reads back), and the id-supply
counter. -/
structure AnthBlocks where
  openaiContent : List Json
  toolCalls : List Json
  toolResults : List (String × String)
  ctr : Nat

/-- One iteration of the block loop in ConvertAnthropicToCopilotMessages
(non-object blocks and unknown block types are skipped). -/
def processBlock (ids : Nat → String) (acc : AnthBlocks) (block : Json) : AnthBlocks :=
  match block with
  | .obj _ =>
    match goStr block "type" with
    | "text" =>
      { acc with openaiContent := acc.openaiContent ++ [textPart (goStr block "text")] }
    | "image" =>
      let source := goObj block "source"
      if goStr source "type" = "base64" then
        let mediaType := if goStr source "media_type" = "" then "image/png" else goStr source "media_type"
        let dataURL := "data:" ++ mediaType ++ ";base64," ++ goStr source "data"
        { acc with openaiContent := acc.openaiContent ++ [imageUrlPart dataURL] }
      else acc
    | "tool_use" =>
      let id0 := goStr block "id"
      let id := if id0 = "" then ids acc.ctr else id0
      let ctr := if id0 = "" then acc.ctr + 1 else acc.ctr
      let name := goStr block "name"
      let inputJSON :=
        match block.get "input" with
        | some (.obj fs) => render (.obj fs)
        | _ => "null"
      { acc with
        toolCalls := acc.toolCalls ++
          [.obj [("id", .str id), ("type", .str "function"),
                 ("function", .obj [("name", .str name), ("arguments", .str inputJSON)])]],
        ctr := ctr }
    | "tool_result" =>
      let toolUseID := goStr block "tool_use_id"
      let contentStr := extractTextContent ((block.get "content").getD .null)
      { acc with toolResults := acc.toolResults ++ [(toolUseID, contentStr)] }
    | _ => acc
  | _ => acc

/-- The single/array collapse applied to a non-empty part list: a lone text
part is unwrapped to its raw `text` value, anything else stays an array. -/
def collapseParts (parts : List Json) : Json :=
  match parts with
  | [p] =>
    match p.get "type" with
    | some (.str "text") => (p.get "text").getD .null
    | _ => .arr parts
  | _ => .arr parts

/-- The role-dispatched assembly at the end of ConvertAnthropicToCopilotMessages'
block-list branch (assistant: one message, null content when no parts, tool
calls attached; user: one tool message per tool_result, then the user content
message when parts exist; other roles: a message only when parts exist). -/
def assembleAnthropicMessage (role : String) (acc : AnthBlocks) : List Json :=
  if role = "assistant" then
    let contentVal := if acc.openaiContent.isEmpty then Json.null else collapseParts acc.openaiContent
    [.obj ([("role", Json.str "assistant"), ("content", contentVal)] ++
      (if acc.toolCalls.isEmpty then [] else [("tool_calls", Json.arr acc.toolCalls)]))]
  else if role = "user" then
    (acc.toolResults.map fun tr =>
      Json.obj [("role", .str "tool"), ("tool_call_id", .str tr.1), ("content", .str tr.2)]) ++
    (if acc.openaiContent.isEmpty then [] else [mkMsg "user" (collapseParts acc.openaiContent)])
  else
    if acc.openaiContent.isEmpty then [] else [mkMsg role (collapseParts acc.openaiContent)]

/-- Conversion of one Anthropic input message (the body of the main loop of
ConvertAnthropicToCopilotMessages), returning the emitted canonical
messages and the advanced id counter. -/
def convertAnthropicMessage (ids : Nat → String) (ctr : Nat) (msg : Json) : List Json × Nat :=
  let role := goStr msg "role"
  match (msg.get "content").getD .null with
  | .str s => ([mkMsg role (.str s)], ctr)
  | .arr blocks =>
    let acc := blocks.foldl (processBlock ids) ⟨[], [], [], ctr⟩
    (assembleAnthropicMessage role acc, acc.ctr)
  | other => ([mkMsg role (.str (render other))], ctr)

/-- converter.ConvertAnthropicToCopilotMessages: optional system message,
then each input message converted in order (the Go nil-vs-empty slice
distinction of the result is immaterial and flattened to `[]`). -/
def ConvertAnthropicToCopilotMessages (ids : Nat → String) (messages : List Json) (system : String) : List Json :=
  let base := if system = "" then [] else [mkMsg "system" (.str system)]
  base ++ (messages.foldl
    (fun (st : List Json × Nat) msg =>
      let (out, ctr) := convertAnthropicMessage ids st.2 msg
      (st.1 ++ out, ctr))
    ([], 0)).1

/-- converter.ConvertAnthropicTools: keep only object entries with a
non-empty name; default the input schema. Go returns nil for an empty
result, rendered here as `[]`. -/
def ConvertAnthropicTools (tools : List Json) : List Json :=
  tools.filterMap fun tool =>
    match tool with
    | .obj _ =>
      let name := goStr tool "name"
      if name = "" then none
      else
        let description := goStr tool "description"
        let inputSchema :=
          match tool.get "input_schema" with
          | some (.obj fs) => Json.obj fs
          | _ => Json.obj [("type", .str "object"), ("properties", .obj [])]
        some (.obj [("type", .str "function"),
                    ("function", .obj [("name", .str name), ("description", .str description),
                                       ("parameters", inputSchema)])])
    | _ => none

/-- One item of the list branch of NormalizeContentForCopilot (`none` for
skipped items: non-string non-object items, and `image` blocks that are
neither base64 nor carry a string url). -/
def normalizeItem (item : Json) : Option Json :=
  match item with
  | .str s => some (textPart s)
  | .obj _ =>
    match goStr item "type" with
    | "input_text" => some (textPart (goStr item "text"))
    | "output_text" => some (textPart (goStr item "text"))
    | "text" => some (textPart (goStr item "text"))
    | "image_url" => some item
    | "input_image" =>
      let u1 := match item.get "image_url" with
        | some (.str s) => s
        | _ => ""
      let u2 := if u1 = "" then
          (match item.get "image_url" with
           | some (.obj fs) => goStr (.obj fs) "url"
           | _ => "")
        else u1
      let u3 := if u2 = "" then goStr item "url" else u2
      some (imageUrlPart u3)
    | "image" =>
      let source := goObj item "source"
      if goStr source "type" = "base64" then
        let mediaType := if goStr source "media_type" = "" then "image/png" else goStr source "media_type"
        some (imageUrlPart ("data:" ++ mediaType ++ ";base64," ++ goStr source "data"))
      else
        match item.get "url" with
        | some (.str u) => some (imageUrlPart u)
        | _ => none
    | _ =>
      match goStrOk item "text" with
      | some t => some (textPart t)
      | none => some (textPart (render item))
  | _ => none

/-- converter.NormalizeContentForCopilot: nil to `""`, strings pass through,
lists are normalized item-wise with a lone text item collapsed to its raw
text value, anything else is marshalled to a string. -/
def NormalizeContentForCopilot (content : Json) : Json :=
  match content with
  | .null => .str ""
  | .str s => .str s
  | .arr items =>
    let normalized := items.filterMap normalizeItem
    match normalized with
    | [p] =>
      match p.get "type" with
      | some (.str "text") => (p.get "text").getD .null
      | _ => .arr normalized
    | _ => .arr normalized
  | j => .str (render j)

/-- Stop reason of ConvertOpenAIResponseToAnthropic for a given first
choice, in source order: tool_calls presence first sets `tool_use`, then the
finish_reason mapping runs and overwrites on `stop` or `length`. -/
def stopReasonFor (choice : Json) : String :=
  let message := goObj choice "message"
  let base :=
    match message.get "tool_calls" with
    | some (.arr l) => if l.isEmpty then "end_turn" else "tool_use"
    | _ => "end_turn"
  let fr := goStr choice "finish_reason"
  if fr = "stop" then "end_turn"
  else if fr = "length" then "max_tokens"
  else base

/-- The tool-call loop of ConvertOpenAIResponseToAnthropic: each entry is
hard-asserted to be an object (`none` models the panic); a missing id is
replaced from the id supply; arguments parse to an object or default to
an empty one. -/
def toolUseBlocks (ids : Nat → String) (parse : String → Option Json)
    (ctr : Nat) (tcs : List Json) : Option (List Json × Nat) :=
  tcs.foldl
    (fun acc tc =>
      acc.bind fun (blocks, ctr) =>
        (asObj tc).map fun tcMap =>
          let id0 := goStr tcMap "id"
          let id := if id0 = "" then ids ctr else id0
          let ctr := if id0 = "" then ctr + 1 else ctr
          let function := goObj tcMap "function"
          let name := goStr function "name"
          let argsStr := goStr function "arguments"
          let args :=
            match (if argsStr = "" then none else parse argsStr) with
            | some (.obj fs) => Json.obj fs
            | _ => Json.obj []
          (blocks ++ [Json.obj [("type", .str "tool_use"), ("id", .str id),
                                ("name", .str name), ("input", args)]], ctr))
    (some ([], ctr))

/-- converter.ConvertOpenAIResponseToAnthropic.  Returns `none` when the
source panics: a non-empty choices list whose first element is not an
object, or a tool_calls entry that is not an object. -/
def ConvertOpenAIResponseToAnthropic (ids : Nat → String) (parse : String → Option Json)
    (resp : Json) (model : String) : Option Json :=
  let choices := goArr resp "choices"
  let body : Option (List Json × String × Nat) :=
    match choices with
    | [] => some ([], "end_turn", 0)
    | c0 :: _ =>
      (asObj c0).bind fun choice =>
        let message := goObj choice "message"
        let content0 :=
          match goStrOk message "content" with
          | some t => if t = "" then [] else [textPart t]
          | none => []
        match message.get "tool_calls" with
        | some (.arr l) =>
          if l.isEmpty then some (content0, stopReasonFor choice, 0)
          else (toolUseBlocks ids parse 0 l).map fun (blocks, ctr) =>
            (content0 ++ blocks, stopReasonFor choice, ctr)
        | _ => some (content0, stopReasonFor choice, 0)
  body.map fun (content, stopReason, ctr) =>
    let usage := goObj resp "usage"
    let promptDetails := goObj usage "prompt_tokens_details"
    Json.obj [
      ("id", .str ("msg_" ++ ids ctr)),
      ("type", .str "message"),
      ("role", .str "assistant"),
      ("content", .arr content),
      ("model", .str model),
      ("stop_reason", .str stopReason),
      ("stop_sequence", .null),
      ("usage", .obj [
        ("input_tokens", .num (goNum usage "prompt_tokens")),
        ("output_tokens", .num (goNum usage "completion_tokens")),
        ("cache_creation_input_tokens", .num 0),
        ("cache_read_input_tokens", .num (goNum promptDetails "cached_tokens"))])]

/-- The running usage counters of the Anthropic streaming handler
(`usageData` map in streamMessages). -/
structure AnthUsage where
  inputTokens : Int
  outputTokens : Int
  cacheReadTokens : Int
  deriving DecidableEq

/-- One in-progress tool call of the Anthropic streaming handler. -/
structure ToolAcc where
  id : String
  name : String
  arguments : String
  deriving DecidableEq

/-- The request-scoped mutable state of streamMessages. -/
structure AnthState where
  contentBlockIndex : Nat
  hasTextContent : Bool
  toolCallsInProgress : List (Int × ToolAcc)
  stopReason : String
  usageData : AnthUsage
  deriving DecidableEq

def initAnthState : AnthState :=
  { contentBlockIndex := 0, hasTextContent := false, toolCallsInProgress := [],
    stopReason := "end_turn", usageData := ⟨0, 0, 0⟩ }

/-- The SSE events streamMessages emits, with the payload fields the claims
are about. -/
inductive AnthEvent where
  | messageStart
  | contentBlockStartText (index : Nat)
  | contentBlockStartToolUse (index : Nat) (id name : String)
  | contentBlockDeltaText (index : Nat) (text : String)
  | contentBlockDeltaJson (index : Nat) (partialJson : String)
  | contentBlockStop (index : Nat)
  | messageDelta (stopReason : String) (outputTokens cacheReadTokens : Int)
  | messageStop
  deriving DecidableEq

/-- Go map insert-or-replace, for `toolCallsInProgress[k] = v`. -/
def updateAssoc (l : List (Int × ToolAcc)) (k : Int) (v : ToolAcc) : List (Int × ToolAcc) :=
  match l with
  | [] => [(k, v)]
  | (k0, v0) :: rest => if k0 = k then (k, v) :: rest else (k0, v0) :: updateAssoc rest k v

/-- Go map lookup `existing, ok := toolCallsInProgress[k]`. -/
def lookupAssoc (l : List (Int × ToolAcc)) (k : Int) : Option ToolAcc :=
  match l with
  | [] => none
  | (k0, v0) :: rest => if k0 = k then some v0 else lookupAssoc rest k

/-- One tool-call delta entry of a chunk (inner loop of streamMessages).
`none` models the panics on a non-object entry or a missing numeric
`index`. -/
def stepToolCall (st : AnthState) (tc : Json) : Option (AnthState × List AnthEvent) :=
  (asObj tc).bind fun tcMap =>
    match tcMap.get "index" with
    | some (.num tcIndex) =>
      let tcID := goStr tcMap "id"
      let tcFunc := goObj tcMap "function"
      if tcID = "" then
        match lookupAssoc st.toolCallsInProgress tcIndex with
        | some existing =>
          match goStrOk tcFunc "arguments" with
          | some args =>
            if args = "" then some (st, [])
            else
              let upd : ToolAcc := { existing with arguments := existing.arguments ++ args }
              some ({ st with toolCallsInProgress :=
                        updateAssoc st.toolCallsInProgress tcIndex upd },
                    [.contentBlockDeltaJson st.contentBlockIndex args])
          | none => some (st, [])
        | none => some (st, [])
      else
        let closing := st.hasTextContent || !st.toolCallsInProgress.isEmpty
        let evs0 := if closing then [AnthEvent.contentBlockStop st.contentBlockIndex] else []
        let idx := if closing then st.contentBlockIndex + 1 else st.contentBlockIndex
        let funcName := goStr tcFunc "name"
        some ({ st with contentBlockIndex := idx,
                        toolCallsInProgress :=
                          updateAssoc st.toolCallsInProgress tcIndex ⟨tcID, funcName, ""⟩ },
              evs0 ++ [.contentBlockStartToolUse idx tcID funcName])
    | _ => none

def runToolCalls (st : AnthState) : List Json → Option (AnthState × List AnthEvent)
  | [] => some (st, [])
  | tc :: tcs =>
    (stepToolCall st tc).bind fun (st', evs) =>
      (runToolCalls st' tcs).map fun (st'', evs') => (st'', evs ++ evs')

/-- The usage-snapshot capture at the top of streamMessages' per-chunk
callback: each counter present in the chunk overwrites the running value. -/
def captureAnthUsage (u : AnthUsage) (chunk : Json) : AnthUsage :=
  match goObjOk chunk "usage" with
  | some usage =>
    let u := match goNumOk usage "prompt_tokens" with
      | some pt => { u with inputTokens := pt }
      | none => u
    let u := match goNumOk usage "completion_tokens" with
      | some ct => { u with outputTokens := ct }
      | none => u
    match goObjOk usage "prompt_tokens_details" with
    | some pd =>
      match goNumOk pd "cached_tokens" with
      | some c => { u with cacheReadTokens := c }
      | none => u
    | none => u
  | none => u

/-- The text-delta handling of streamMessages' per-chunk callback: a
non-empty content string marks the text flag and emits a text delta at the
current block index. -/
def textEvents (st : AnthState) (delta : Json) : AnthState × List AnthEvent :=
  match goStrOk delta "content" with
  | some content =>
    if content = "" then (st, [])
    else ({ st with hasTextContent := true },
          [.contentBlockDeltaText st.contentBlockIndex content])
  | none => (st, [])

/-- The per-chunk callback of streamMessages on one parsed data chunk:
usage capture, sticky tool_use stop reason, text delta, then the tool-call
loop.  `none` models the panic on a non-object first choice (or inside the
tool-call loop). -/
def processChunk (st : AnthState) (chunk : Json) : Option (AnthState × List AnthEvent) :=
  let st0 := { st with usageData := captureAnthUsage st.usageData chunk }
  match goArr chunk "choices" with
  | [] => some (st0, [])
  | c0 :: _ =>
    (asObj c0).bind fun choice =>
      let delta := goObj choice "delta"
      let st1 := if goStr choice "finish_reason" = "tool_calls"
        then { st0 with stopReason := "tool_use" } else st0
      let ts := textEvents st1 delta
      match goArrOk delta "tool_calls" with
      | some tcs =>
        if tcs.isEmpty then some ts
        else (runToolCalls ts.1 tcs).map fun p => (p.1, ts.2 ++ p.2)
      | none => some ts

def runChunks (st : AnthState) : List Json → Option (AnthState × List AnthEvent)
  | [] => some (st, [])
  | c :: cs =>
    (processChunk st c).bind fun (st', evs) =>
      (runChunks st' cs).map fun (st'', evs') => (st'', evs ++ evs')

def startAnthEvents : List AnthEvent :=
  [.messageStart, .contentBlockStartText 0]

def endAnthEvents (st : AnthState) : List AnthEvent :=
  [.contentBlockStop st.contentBlockIndex,
   .messageDelta st.stopReason st.usageData.outputTokens st.usageData.cacheReadTokens,
   .messageStop]

/-- The whole event sequence streamMessages emits for a given parsed chunk
sequence (a transport error merely truncates the chunk list; the closing
events are emitted unconditionally).  `none` models a mid-stream panic,
after which nothing further is emitted. -/
def streamMessagesEvents (chunks : List Json) : Option (List AnthEvent) :=
  (runChunks initAnthState chunks).map fun (st, evs) =>
    startAnthEvents ++ evs ++ endAnthEvents st

/-- Usage counters of the Responses streaming handler. -/
structure RespUsage where
  inputTokens : Int
  outputTokens : Int
  totalTokens : Int
  cachedTokens : Int
  deriving DecidableEq

/-- Request-scoped state of streamResponses (output_index and content_index
are the constants 0 in the source and appear as literals below). -/
structure RespState where
  fullText : String
  usageData : RespUsage
  deriving DecidableEq

def initRespState : RespState := { fullText := "", usageData := ⟨0, 0, 0, 0⟩ }

/-- The SSE events streamResponses emits. -/
inductive RespEvent where
  | responseCreated
  | outputItemAdded (outputIndex : Nat)
  | contentPartAdded (outputIndex contentIndex : Nat)
  | outputTextDelta (outputIndex contentIndex : Nat) (delta : String)
  | outputTextDone (outputIndex contentIndex : Nat) (text : String)
  | contentPartDone (outputIndex contentIndex : Nat) (text : String)
  | outputItemDone (outputIndex : Nat) (text : String)
  | responseCompleted (text : String) (usage : RespUsage)
  deriving DecidableEq

def captureRespUsage (u : RespUsage) (chunk : Json) : RespUsage :=
  match goObjOk chunk "usage" with
  | some usage =>
    let u := match goNumOk usage "prompt_tokens" with
      | some pt => { u with inputTokens := pt }
      | none => u
    let u := match goNumOk usage "completion_tokens" with
      | some ct => { u with outputTokens := ct }
      | none => u
    let u := match goNumOk usage "total_tokens" with
      | some tt => { u with totalTokens := tt }
      | none => u
    match goObjOk usage "prompt_tokens_details" with
    | some pd =>
      match goNumOk pd "cached_tokens" with
      | some c => { u with cachedTokens := c }
      | none => u
    | none => u
  | none => u

/-- The per-chunk callback of streamResponses.  `none` models the panic on a
non-object first choice. -/
def processResponsesChunk (st : RespState) (chunk : Json) : Option (RespState × List RespEvent) :=
  let st := { st with usageData := captureRespUsage st.usageData chunk }
  match goArr chunk "choices" with
  | [] => some (st, [])
  | c0 :: _ =>
    (asObj c0).map fun choice =>
      let delta := goObj choice "delta"
      let content := goStr delta "content"
      if content = "" then (st, [])
      else ({ st with fullText := st.fullText ++ content },
            [.outputTextDelta 0 0 content])

def runResponsesChunks (st : RespState) : List Json → Option (RespState × List RespEvent)
  | [] => some (st, [])
  | c :: cs =>
    (processResponsesChunk st c).bind fun (st', evs) =>
      (runResponsesChunks st' cs).map fun (st'', evs') => (st'', evs ++ evs')

def startRespEvents : List RespEvent :=
  [.responseCreated, .outputItemAdded 0, .contentPartAdded 0 0]

def endRespEvents (st : RespState) : List RespEvent :=
  [.outputTextDone 0 0 st.fullText,
   .contentPartDone 0 0 st.fullText,
   .outputItemDone 0 st.fullText,
   .responseCompleted st.fullText st.usageData]

/-- The whole event sequence streamResponses emits for a given parsed chunk
sequence; `none` models a mid-stream panic. -/
def streamResponsesEvents (chunks : List Json) : Option (List RespEvent) :=
  (runResponsesChunks initRespState chunks).map fun (st, evs) =>
    startRespEvents ++ evs ++ endRespEvents st

/-- The usage document shape produced by extractUsage. -/
def usageJson (input output total cached accepted rejected : Int) : Json :=
  .obj [
    ("input_tokens", .num input),
    ("output_tokens", .num output),
    ("total_tokens", .num total),
    ("input_tokens_details", .obj [("cached_tokens", .num cached)]),
    ("output_tokens_details", .obj [
      ("accepted_prediction_tokens", .num accepted),
      ("rejected_prediction_tokens", .num rejected)])]

/-- handlers.extractUsage: a pure field mapping with every missing field
defaulting to 0 (a non-object argument fails Go's re-unmarshal, leaving a
nil map on which every lookup misses). -/
def extractUsage (resp : Json) : Json :=
  let usage := goObj resp "usage"
  let promptDetails := goObj usage "prompt_tokens_details"
  let completionDetails := goObj usage "completion_tokens_details"
  usageJson (goNum usage "prompt_tokens") (goNum usage "completion_tokens")
    (goNum usage "total_tokens") (goNum promptDetails "cached_tokens")
    (goNum completionDetails "accepted_prediction_tokens")
    (goNum completionDetails "rejected_prediction_tokens")

/-- Number of content_block_start events. -/
def nStarts (evs : List AnthEvent) : Nat :=
  (evs.filter fun e =>
    match e with
    | .contentBlockStartText _ => true
    | .contentBlockStartToolUse _ _ _ => true
    | _ => false).length

/-- Number of content_block_stop events. -/
def nStops (evs : List AnthEvent) : Nat :=
  (evs.filter fun e =>
    match e with
    | .contentBlockStop _ => true
    | _ => false).length

/-- Index carried by a content_block_start event, if any. -/
def startIdx : AnthEvent → Option Nat
  | .contentBlockStartText i => some i
  | .contentBlockStartToolUse i _ _ => some i
  | _ => none

/-- Indices of the content_block_stop events, in emission order. -/
def stopIdxs (evs : List AnthEvent) : List Nat :=
  evs.filterMap fun e =>
    match e with
    | .contentBlockStop i => some i
    | _ => none

/-- Strictly increasing check on a list of indices. -/
def strictIncr : List Nat → Bool
  | [] => true
  | [_] => true
  | a :: b :: t => decide (a < b) && strictIncr (b :: t)

/-- Index of the last content_block_start seen, starting from `o`. -/
def lastStartIdx (o : Option Nat) (evs : List AnthEvent) : Option Nat :=
  evs.foldl (fun acc e => match startIdx e with | some i => some i | none => acc) o

/-- Every content_block_stop carries the index of the closest preceding
content_block_start (`o` is the index of the start preceding the list). -/
def stopsMatch : Option Nat → List AnthEvent → Bool
  | _, [] => true
  | o, e :: rest =>
    match startIdx e with
    | some i => stopsMatch (some i) rest
    | none =>
      match e with
      | .contentBlockStop i => o == some i && stopsMatch o rest
      | _ => stopsMatch o rest

/-- The value a chunk reports for completion_tokens, when present. -/
def repOutputTokens (chunk : Json) : Option Int :=
  (goObjOk chunk "usage").bind fun u => goNumOk u "completion_tokens"

/-- The value a chunk reports for prompt_tokens, when present. -/
def repInputTokens (chunk : Json) : Option Int :=
  (goObjOk chunk "usage").bind fun u => goNumOk u "prompt_tokens"

/-- The value a chunk reports for cached prompt tokens, when present. -/
def repCachedTokens (chunk : Json) : Option Int :=
  (goObjOk chunk "usage").bind fun u =>
    (goObjOk u "prompt_tokens_details").bind fun pd => goNumOk pd "cached_tokens"

/-- Last value reported by any chunk of the list (snapshot-overwrite
semantics), `none` when never reported. -/
def lastReported (f : Json → Option Int) (chunks : List Json) : Option Int :=
  chunks.foldl (fun acc c => match f c with | some v => some v | none => acc) none

/-- The content part one block contributes in ConvertAnthropicToCopilotMessages
(text and base64-image blocks only). -/
def partOf (block : Json) : Option Json :=
  match block with
  | .obj _ =>
    match goStr block "type" with
    | "text" => some (textPart (goStr block "text"))
    | "image" =>
      let source := goObj block "source"
      if goStr source "type" = "base64" then
        let mediaType := if goStr source "media_type" = "" then "image/png" else goStr source "media_type"
        let dataURL := "data:" ++ mediaType ++ ";base64," ++ goStr source "data"
        some (imageUrlPart dataURL)
      else none
    | _ => none
  | _ => none

/-- The tool-result pair `(tool_use_id, flattened content)` one block
contributes, if it is a tool_result block. -/
def toolResultOf (block : Json) : Option (String × String) :=
  match block with
  | .obj _ =>
    match goStr block "type" with
    | "tool_result" =>
      some (goStr block "tool_use_id", extractTextContent ((block.get "content").getD .null))
    | _ => none
  | _ => none

/-- Content parts a block list contributes, in order. -/
def contentPartsOf (blocks : List Json) : List Json :=
  blocks.filterMap partOf

/-- Tool-result pairs a block list contributes, in order. -/
def toolResultsOf (blocks : List Json) : List (String × String) :=
  blocks.filterMap toolResultOf

/-- Fixed id supply used by concrete inputs. -/
def sampleIds : Nat → String := fun n => "gen-" ++ toString n

/-- Parser stub used by concrete inputs (every argument string fails to
parse, as the concrete inputs below all carry empty or absent arguments). -/
def sampleParse : String → Option Json := fun _ => none

/-- The event-level invariant maintained by streamMessages between chunks,
relative to the state reached: emitted stop indices are bounded by and
strictly increase towards the current block index, every stop matches the
closest preceding start, the last start carries the current index, and the
start/stop counts differ by one — or by two exactly when the first tool_use
block was opened while the initial text block was still empty (in which
case the tool-call map is non-empty). -/
def blockInv (st : AnthState) (evs : List AnthEvent) : Prop :=
  (∀ i ∈ stopIdxs evs, i < st.contentBlockIndex) ∧
  strictIncr (stopIdxs evs) = true ∧
  stopsMatch none evs = true ∧
  lastStartIdx none evs = some st.contentBlockIndex ∧
  (nStarts evs = nStops evs + 1 ∨
   (nStarts evs = nStops evs + 2 ∧ st.toolCallsInProgress ≠ []))

/-- Concrete chunk whose first choice carries tool_calls and whose
finish_reason is "stop". -/
def c1xResp : Json :=
  .obj [("choices", .arr [.obj [
    ("message", .obj [("tool_calls", .arr [.obj [("id", .str "c1"),
      ("function", .obj [("name", .str "f"), ("arguments", .str "")])]])]),
    ("finish_reason", .str "stop")]])]

/-- Concrete first choice carrying one tool call and finish_reason
"tool_calls". -/
def c1wChoice : Json :=
  .obj [("message", .obj [("tool_calls", .arr [.obj []])]),
        ("finish_reason", .str "tool_calls")]

def c1wResp : Json := .obj [("choices", .arr [c1wChoice])]

/-- The document ConvertOpenAIResponseToAnthropic produces for `c1wResp`. -/
def c1wDoc : Json :=
  .obj [("id", .str "msg_gen-1"), ("type", .str "message"), ("role", .str "assistant"),
        ("content", .arr [.obj [("type", .str "tool_use"), ("id", .str "gen-0"),
                                ("name", .str ""), ("input", .obj [])]]),
        ("model", .str "m"), ("stop_reason", .str "tool_use"), ("stop_sequence", .null),
        ("usage", .obj [("input_tokens", .num 0), ("output_tokens", .num 0),
                        ("cache_creation_input_tokens", .num 0),
                        ("cache_read_input_tokens", .num 0)])]

def c2wChunks : List Json :=
  [.obj [("choices", .arr [.obj [("delta", .obj [("content", .str "Hi")])]])]]

def c2wState : AnthState :=
  { contentBlockIndex := 0, hasTextContent := true, toolCallsInProgress := [],
    stopReason := "end_turn", usageData := ⟨0, 0, 0⟩ }

def c2wEvents : List AnthEvent := [.contentBlockDeltaText 0 "Hi"]

def c4wChunks : List Json :=
  [.obj [("usage", .obj [("completion_tokens", .num 3)])]]

def c4wState : AnthState :=
  { contentBlockIndex := 0, hasTextContent := false, toolCallsInProgress := [],
    stopReason := "end_turn", usageData := ⟨0, 3, 0⟩ }

def c5wBlocks : List Json := [.obj [("type", .str "text"), ("text", .str "hi")]]

/-! Projection lemmas for the block-partition fold of
ConvertAnthropicToCopilotMessages. -/

lemma processBlock_openaiContent (ids : Nat → String) (acc : AnthBlocks) (block : Json) :
    (processBlock ids acc block).openaiContent = acc.openaiContent ++ (partOf block).toList := by
  cases block with
  | obj fs =>
    simp only [processBlock, partOf]
    split
    · rename_i htype; simp [htype]
    · rename_i htype; simp only [htype]; split <;> simp
    · rename_i htype; simp [htype]
    · rename_i htype; simp [htype]
    · split
      all_goals simp_all
  | null => simp [processBlock, partOf]
  | bool b => simp [processBlock, partOf]
  | num n => simp [processBlock, partOf]
  | str s => simp [processBlock, partOf]
  | arr xs => simp [processBlock, partOf]

lemma processBlock_toolResults (ids : Nat → String) (acc : AnthBlocks) (block : Json) :
    (processBlock ids acc block).toolResults = acc.toolResults ++ (toolResultOf block).toList := by
  cases block with
  | obj fs =>
    simp only [processBlock, toolResultOf]
    split
    · rename_i htype; simp [htype]
    · rename_i htype; simp only [htype]; split <;> simp
    · rename_i htype; simp [htype]
    · rename_i htype; simp [htype]
    · split
      all_goals simp_all
  | null => simp [processBlock, toolResultOf]
  | bool b => simp [processBlock, toolResultOf]
  | num n => simp [processBlock, toolResultOf]
  | str s => simp [processBlock, toolResultOf]
  | arr xs => simp [processBlock, toolResultOf]

lemma foldl_processBlock_openaiContent (ids : Nat → String) (blocks : List Json) :
    ∀ acc : AnthBlocks,
      (blocks.foldl (processBlock ids) acc).openaiContent = acc.openaiContent ++ contentPartsOf blocks := by
  induction blocks with
  | nil => intro acc; simp [contentPartsOf]
  | cons b bs ih =>
    intro acc
    rw [List.foldl_cons, ih, processBlock_openaiContent]
    cases h : partOf b <;> simp [contentPartsOf, List.filterMap_cons, h]

lemma foldl_processBlock_toolResults (ids : Nat → String) (blocks : List Json) :
    ∀ acc : AnthBlocks,
      (blocks.foldl (processBlock ids) acc).toolResults = acc.toolResults ++ toolResultsOf blocks := by
  induction blocks with
  | nil => intro acc; simp [toolResultsOf]
  | cons b bs ih =>
    intro acc
    rw [List.foldl_cons, ih, processBlock_toolResults]
    cases h : toolResultOf b <;> simp [toolResultsOf, List.filterMap_cons, h]

lemma assembleAnthropicMessage_user (acc : AnthBlocks) :
    assembleAnthropicMessage "user" acc =
      (acc.toolResults.map fun tr =>
        Json.obj [("role", .str "tool"), ("tool_call_id", .str tr.1), ("content", .str tr.2)]) ++
      (if acc.openaiContent.isEmpty then [] else [mkMsg "user" (collapseParts acc.openaiContent)]) := by
  unfold assembleAnthropicMessage
  rw [if_neg (by decide : ¬ ("user" : String) = "assistant"), if_pos rfl]

lemma assembleAnthropicMessage_other (role : String) (acc : AnthBlocks)
    (h1 : role ≠ "assistant") (h2 : role ≠ "user") :
    assembleAnthropicMessage role acc =
      if acc.openaiContent.isEmpty then [] else [mkMsg role (collapseParts acc.openaiContent)] := by
  unfold assembleAnthropicMessage
  rw [if_neg h1, if_neg h2]

/-! Usage counters of streamMessages change only through the snapshot
capture, never through the event-emitting branches. -/

lemma stepToolCall_usageData (st : AnthState) (tc : Json) (st2 : AnthState)
    (evs : List AnthEvent) (h : stepToolCall st tc = some (st2, evs)) :
    st2.usageData = st.usageData := by
  unfold stepToolCall at h
  cases tc <;> simp only [asObj, Option.bind] at h <;>
    try exact Option.noConfusion h
  case obj fs =>
    split at h
    · split at h
      · split at h
        · split at h
          · split at h
            · simp only [Option.some.injEq, Prod.mk.injEq] at h
              rw [← h.1]
            · simp only [Option.some.injEq, Prod.mk.injEq] at h
              rw [← h.1]
          · simp only [Option.some.injEq, Prod.mk.injEq] at h
            rw [← h.1]
        · simp only [Option.some.injEq, Prod.mk.injEq] at h
          rw [← h.1]
      · simp only [Option.some.injEq, Prod.mk.injEq] at h
        rw [← h.1]
    · exact absurd h (by simp)

lemma runToolCalls_usageData (tcs : List Json) : ∀ (st st2 : AnthState) (evs : List AnthEvent),
    runToolCalls st tcs = some (st2, evs) → st2.usageData = st.usageData := by
  induction tcs with
  | nil => intro st st2 evs h; simp [runToolCalls] at h; rw [← h.1]
  | cons tc tcs ih =>
    intro st st2 evs h
    simp only [runToolCalls] at h
    cases h1 : stepToolCall st tc with
    | none => rw [h1] at h; simp at h
    | some p =>
      rw [h1] at h
      obtain ⟨st1, evs1⟩ := p
      simp only [Option.bind] at h
      cases h2 : runToolCalls st1 tcs with
      | none => rw [h2] at h; simp at h
      | some q =>
        rw [h2] at h
        obtain ⟨stq, evsq⟩ := q
        simp only [Option.map, Option.some.injEq, Prod.mk.injEq] at h
        rw [← h.1]
        rw [ih st1 stq evsq h2, stepToolCall_usageData st tc st1 evs1 h1]

lemma textEvents_fst_usageData (st : AnthState) (delta : Json) :
    (textEvents st delta).1.usageData = st.usageData := by
  unfold textEvents
  split
  · split <;> rfl
  · rfl

lemma processChunk_usageData (st : AnthState) (c : Json) (st2 : AnthState)
    (evs : List AnthEvent) (h : processChunk st c = some (st2, evs)) :
    st2.usageData = captureAnthUsage st.usageData c := by
  unfold processChunk at h
  split at h
  · simp only [Option.some.injEq, Prod.mk.injEq] at h
    rw [← h.1]
  · rename_i c0 rest heq
    cases hc : asObj c0 with
    | none => rw [hc] at h; exact Option.noConfusion h
    | some choice =>
      rw [hc] at h
      simp only [Option.bind] at h
      split at h
      · split at h
        · simp only [Option.some.injEq] at h
          have h1 : (textEvents _ _).1 = st2 := congrArg Prod.fst h
          rw [← h1, textEvents_fst_usageData]
          split <;> rfl
        · cases hrt : runToolCalls (textEvents _ (goObj choice "delta")).1 _ with
          | none => rw [hrt] at h; exact Option.noConfusion h
          | some q =>
            rw [hrt] at h
            simp only [Option.map, Option.some.injEq, Prod.mk.injEq] at h
            rw [← h.1]
            rw [runToolCalls_usageData _ _ _ _ hrt, textEvents_fst_usageData]
            split <;> rfl
      · simp only [Option.some.injEq] at h
        have h1 : (textEvents _ _).1 = st2 := congrArg Prod.fst h
        rw [← h1, textEvents_fst_usageData]
        split <;> rfl

lemma runChunks_usageData (chunks : List Json) : ∀ (st0 st : AnthState) (evs : List AnthEvent),
    runChunks st0 chunks = some (st, evs) →
    st.usageData = chunks.foldl captureAnthUsage st0.usageData := by
  induction chunks with
  | nil =>
    intro st0 st evs h
    simp only [runChunks, Option.some.injEq, Prod.mk.injEq] at h
    rw [← h.1]
    rfl
  | cons c cs ih =>
    intro st0 st evs h
    simp only [runChunks] at h
    cases h1 : processChunk st0 c with
    | none => rw [h1] at h; exact Option.noConfusion h
    | some p =>
      rw [h1] at h
      obtain ⟨st1, evs1⟩ := p
      simp only [Option.bind] at h
      cases h2 : runChunks st1 cs with
      | none => rw [h2] at h; exact Option.noConfusion h
      | some q =>
        rw [h2] at h
        obtain ⟨stq, evsq⟩ := q
        simp only [Option.map, Option.some.injEq, Prod.mk.injEq] at h
        rw [← h.1]
        rw [ih st1 stq evsq h2, List.foldl_cons, processChunk_usageData st0 c st1 evs1 h1]

/-! Snapshot-overwrite characterization of the usage capture. -/

lemma captureAnthUsage_outputTokens (u : AnthUsage) (c : Json) :
    (captureAnthUsage u c).outputTokens = (repOutputTokens c).getD u.outputTokens := by
  unfold captureAnthUsage repOutputTokens
  cases h1 : goObjOk c "usage" with
  | none => simp
  | some usage =>
    simp only [Option.bind]
    cases h2 : goNumOk usage "prompt_tokens" <;>
      cases h3 : goNumOk usage "completion_tokens" <;>
        cases h4 : goObjOk usage "prompt_tokens_details" <;> simp_all
    all_goals (cases h5 : goNumOk _ "cached_tokens" <;> simp_all)

lemma captureAnthUsage_inputTokens (u : AnthUsage) (c : Json) :
    (captureAnthUsage u c).inputTokens = (repInputTokens c).getD u.inputTokens := by
  unfold captureAnthUsage repInputTokens
  cases h1 : goObjOk c "usage" with
  | none => simp
  | some usage =>
    simp only [Option.bind]
    cases h2 : goNumOk usage "prompt_tokens" <;>
      cases h3 : goNumOk usage "completion_tokens" <;>
        cases h4 : goObjOk usage "prompt_tokens_details" <;> simp_all
    all_goals (cases h5 : goNumOk _ "cached_tokens" <;> simp_all)

lemma captureAnthUsage_cacheReadTokens (u : AnthUsage) (c : Json) :
    (captureAnthUsage u c).cacheReadTokens = (repCachedTokens c).getD u.cacheReadTokens := by
  unfold captureAnthUsage repCachedTokens
  cases h1 : goObjOk c "usage" with
  | none => simp
  | some usage =>
    simp only [Option.bind]
    cases h2 : goNumOk usage "prompt_tokens" <;>
      cases h3 : goNumOk usage "completion_tokens" <;>
        cases h4 : goObjOk usage "prompt_tokens_details" <;> simp_all
    all_goals (cases h5 : goNumOk _ "cached_tokens" <;> simp_all)

lemma lastReported_from (f : Json → Option Int) (cs : List Json) : ∀ (a : Option Int),
    cs.foldl (fun acc c => match f c with | some v => some v | none => acc) a =
    match lastReported f cs with | some v => some v | none => a := by
  induction cs with
  | nil => intro a; simp [lastReported]
  | cons c cs ih =>
    intro a
    have hcons : lastReported f (c :: cs) =
        match lastReported f cs with
        | some v => some v
        | none => (match f c with | some v => some v | none => none) := by
      unfold lastReported
      rw [List.foldl_cons, ih]
      rfl
    rw [List.foldl_cons, ih, hcons]
    cases hfc : f c <;> cases hcs : lastReported f cs <;> simp

lemma foldl_capture_outputTokens (cs : List Json) : ∀ (u : AnthUsage),
    (cs.foldl captureAnthUsage u).outputTokens =
      (lastReported repOutputTokens cs).getD u.outputTokens := by
  induction cs with
  | nil => intro u; simp [lastReported]
  | cons c cs ih =>
    intro u
    rw [List.foldl_cons, ih]
    have hcons : lastReported repOutputTokens (c :: cs) =
        match lastReported repOutputTokens cs with
        | some v => some v
        | none => (match repOutputTokens c with | some v => some v | none => none) := by
      unfold lastReported
      rw [List.foldl_cons, lastReported_from]
      rfl
    rw [hcons, captureAnthUsage_outputTokens]
    cases hfc : repOutputTokens c <;> cases hcs : lastReported repOutputTokens cs <;> simp

lemma foldl_capture_inputTokens (cs : List Json) : ∀ (u : AnthUsage),
    (cs.foldl captureAnthUsage u).inputTokens =
      (lastReported repInputTokens cs).getD u.inputTokens := by
  induction cs with
  | nil => intro u; simp [lastReported]
  | cons c cs ih =>
    intro u
    rw [List.foldl_cons, ih]
    have hcons : lastReported repInputTokens (c :: cs) =
        match lastReported repInputTokens cs with
        | some v => some v
        | none => (match repInputTokens c with | some v => some v | none => none) := by
      unfold lastReported
      rw [List.foldl_cons, lastReported_from]
      rfl
    rw [hcons, captureAnthUsage_inputTokens]
    cases hfc : repInputTokens c <;> cases hcs : lastReported repInputTokens cs <;> simp

lemma foldl_capture_cacheReadTokens (cs : List Json) : ∀ (u : AnthUsage),
    (cs.foldl captureAnthUsage u).cacheReadTokens =
      (lastReported repCachedTokens cs).getD u.cacheReadTokens := by
  induction cs with
  | nil => intro u; simp [lastReported]
  | cons c cs ih =>
    intro u
    rw [List.foldl_cons, ih]
    have hcons : lastReported repCachedTokens (c :: cs) =
        match lastReported repCachedTokens cs with
        | some v => some v
        | none => (match repCachedTokens c with | some v => some v | none => none) := by
      unfold lastReported
      rw [List.foldl_cons, lastReported_from]
      rfl
    rw [hcons, captureAnthUsage_cacheReadTokens]
    cases hfc : repCachedTokens c <;> cases hcs : lastReported repCachedTokens cs <;> simp

lemma lastReported_mem (f : Json → Option Int) (cs : List Json) : ∀ (v : Int),
    lastReported f cs = some v → ∃ c ∈ cs, f c = some v := by
  induction cs with
  | nil => intro v h; simp [lastReported] at h
  | cons c cs ih =>
    intro v h
    unfold lastReported at h
    rw [List.foldl_cons, lastReported_from] at h
    cases hcs : lastReported f cs with
    | some w =>
      rw [hcs] at h
      obtain ⟨cw, hmem, hcw⟩ := ih v (by rw [hcs, ← h])
      exact ⟨cw, List.mem_cons_of_mem _ hmem, hcw⟩
    | none =>
      rw [hcs] at h
      cases hfc : f c with
      | some w =>
        rw [hfc] at h
        simp at h
        exact ⟨c, List.mem_cons_self _ _, by rw [hfc, h]⟩
      | none => rw [hfc] at h; exact Option.noConfusion h

/-! Event-counting infrastructure for the block start/stop invariant. -/

lemma stopIdxs_append (a b : List AnthEvent) :
    stopIdxs (a ++ b) = stopIdxs a ++ stopIdxs b := by
  simp [stopIdxs]

lemma nStarts_append (a b : List AnthEvent) :
    nStarts (a ++ b) = nStarts a + nStarts b := by
  simp [nStarts]

lemma nStops_append (a b : List AnthEvent) :
    nStops (a ++ b) = nStops a + nStops b := by
  simp [nStops]

lemma lastStartIdx_append (o : Option Nat) (a b : List AnthEvent) :
    lastStartIdx o (a ++ b) = lastStartIdx (lastStartIdx o a) b := by
  simp [lastStartIdx]

lemma stopsMatch_append (a : List AnthEvent) : ∀ (o : Option Nat) (b : List AnthEvent),
    stopsMatch o (a ++ b) = (stopsMatch o a && stopsMatch (lastStartIdx o a) b) := by
  induction a with
  | nil => intro o b; simp [stopsMatch, lastStartIdx]
  | cons e a ih =>
    intro o b
    cases e <;> simp [stopsMatch, startIdx, lastStartIdx, ih, Bool.and_assoc]

lemma strictIncr_append_lt (n : Nat) : ∀ (xs : List Nat),
    strictIncr xs = true → (∀ x ∈ xs, x < n) → strictIncr (xs ++ [n]) = true := by
  intro xs
  induction xs with
  | nil => intro _ _; rfl
  | cons a t ih =>
    intro h hall
    cases t with
    | nil =>
      simp only [List.cons_append, List.nil_append, strictIncr, Bool.and_eq_true,
        decide_eq_true_iff]
      exact ⟨hall a (List.mem_cons_self _ _), trivial⟩
    | cons b t2 =>
      simp only [List.cons_append, strictIncr, Bool.and_eq_true, decide_eq_true_iff] at h ⊢
      refine ⟨h.1, ?_⟩
      have := ih h.2 (fun x hx => hall x (List.mem_cons_of_mem _ hx))
      simpa using this

lemma updateAssoc_ne_nil (l : List (Int × ToolAcc)) (k : Int) (v : ToolAcc) :
    updateAssoc l k v ≠ [] := by
  cases l with
  | nil => simp [updateAssoc]
  | cons p rest =>
    obtain ⟨k0, v0⟩ := p
    unfold updateAssoc
    split <;> simp

/-! Preservation of the block invariant through each kind of step. -/

lemma blockInv_preserve (st st2 : AnthState) (evs : List AnthEvent)
    (h : blockInv st evs)
    (hidx : st2.contentBlockIndex = st.contentBlockIndex)
    (htools : st.toolCallsInProgress ≠ [] → st2.toolCallsInProgress ≠ []) :
    blockInv st2 evs := by
  obtain ⟨h1, h2, h3, h4, h5⟩ := h
  exact ⟨by rw [hidx]; exact h1, h2, h3, by rw [hidx]; exact h4,
         h5.imp id (fun hp => ⟨hp.1, htools hp.2⟩)⟩

lemma blockInv_append_neutral (st : AnthState) (evs : List AnthEvent) (e : AnthEvent)
    (h : blockInv st evs)
    (hstart : startIdx e = none)
    (hstop : stopIdxs [e] = [])
    (hnStarts : nStarts [e] = 0)
    (hnStops : nStops [e] = 0)
    (hmatch : ∀ o, stopsMatch o [e] = true) :
    blockInv st (evs ++ [e]) := by
  obtain ⟨b1, b2, b3, b4, b5⟩ := h
  refine ⟨?_, ?_, ?_, ?_, ?_⟩
  · rw [stopIdxs_append, hstop, List.append_nil]; exact b1
  · rw [stopIdxs_append, hstop, List.append_nil]; exact b2
  · rw [stopsMatch_append, b3, hmatch, Bool.and_self]
  · rw [lastStartIdx_append, b4]
    simp [lastStartIdx, hstart]
  · rw [nStarts_append, nStops_append, hnStarts, hnStops]
    simpa using b5

lemma blockInv_open_close (st : AnthState) (evs : List AnthEvent)
    (id name : String) (k : Int) (acc : ToolAcc)
    (h : blockInv st evs) :
    blockInv
      { st with contentBlockIndex := st.contentBlockIndex + 1,
                toolCallsInProgress := updateAssoc st.toolCallsInProgress k acc }
      (evs ++ [.contentBlockStop st.contentBlockIndex,
               .contentBlockStartToolUse (st.contentBlockIndex + 1) id name]) := by
  obtain ⟨b1, b2, b3, b4, b5⟩ := h
  have hstops : stopIdxs [AnthEvent.contentBlockStop st.contentBlockIndex,
      AnthEvent.contentBlockStartToolUse (st.contentBlockIndex + 1) id name] =
      [st.contentBlockIndex] := rfl
  refine ⟨?_, ?_, ?_, ?_, ?_⟩
  · rw [stopIdxs_append, hstops]
    intro j hj
    rcases List.mem_append.mp hj with hj1 | hj2
    · exact Nat.lt_succ_of_lt (b1 j hj1)
    · simp at hj2
      subst hj2
      exact Nat.lt_succ_self _
  · rw [stopIdxs_append, hstops]
    exact strictIncr_append_lt _ _ b2 b1
  · rw [stopsMatch_append, b3, b4]
    simp [stopsMatch, startIdx]
  · rw [lastStartIdx_append, b4]
    simp [lastStartIdx, startIdx]
  · rw [nStarts_append, nStops_append,
        show nStarts [AnthEvent.contentBlockStop st.contentBlockIndex,
          AnthEvent.contentBlockStartToolUse (st.contentBlockIndex + 1) id name] = 1 from rfl,
        show nStops [AnthEvent.contentBlockStop st.contentBlockIndex,
          AnthEvent.contentBlockStartToolUse (st.contentBlockIndex + 1) id name] = 1 from rfl]
    rcases b5 with hcnt | ⟨hcnt, htl⟩
    · left
      rw [hcnt]
    · right
      refine ⟨by rw [hcnt], updateAssoc_ne_nil _ _ _⟩

lemma blockInv_open_dup (st : AnthState) (evs : List AnthEvent)
    (id name : String) (k : Int) (acc : ToolAcc)
    (h : blockInv st evs)
    (htl : st.toolCallsInProgress = []) :
    blockInv
      { st with toolCallsInProgress := updateAssoc st.toolCallsInProgress k acc }
      (evs ++ [.contentBlockStartToolUse st.contentBlockIndex id name]) := by
  obtain ⟨b1, b2, b3, b4, b5⟩ := h
  refine ⟨?_, ?_, ?_, ?_, ?_⟩
  · rw [stopIdxs_append]
    intro j hj
    rcases List.mem_append.mp hj with hj1 | hj2
    · exact b1 j hj1
    · simp [stopIdxs] at hj2
  · rw [stopIdxs_append]
    have heq : stopIdxs [AnthEvent.contentBlockStartToolUse st.contentBlockIndex id name] = [] := rfl
    rw [heq, List.append_nil]
    exact b2
  · rw [stopsMatch_append, b3]
    simp [stopsMatch, startIdx]
  · rw [lastStartIdx_append, b4]
    simp [lastStartIdx, startIdx]
  · rw [nStarts_append, nStops_append,
        show nStarts [AnthEvent.contentBlockStartToolUse st.contentBlockIndex id name] = 1 from rfl,
        show nStops [AnthEvent.contentBlockStartToolUse st.contentBlockIndex id name] = 0 from rfl]
    rcases b5 with hcnt | ⟨hcnt, htl2⟩
    · right
      refine ⟨by rw [hcnt], updateAssoc_ne_nil _ _ _⟩
    · exact absurd htl2 (by simp [htl])

lemma stepToolCall_inv (st : AnthState) (tc : Json) (st2 : AnthState)
    (evs2 : List AnthEvent) (h : stepToolCall st tc = some (st2, evs2))
    (evs : List AnthEvent) (hInv : blockInv st evs) :
    blockInv st2 (evs ++ evs2) := by
  unfold stepToolCall at h
  cases tc <;> simp only [asObj, Option.bind] at h <;> try exact Option.noConfusion h
  case obj fs =>
    split at h
    · split at h
      · split at h
        · split at h
          · split at h
            · simp only [Option.some.injEq, Prod.mk.injEq] at h
              rw [← h.1, ← h.2, List.append_nil]
              exact hInv
            · simp only [Option.some.injEq, Prod.mk.injEq] at h
              rw [← h.1, ← h.2]
              exact blockInv_append_neutral _ _ _
                (blockInv_preserve st _ evs hInv rfl (fun _ => updateAssoc_ne_nil _ _ _))
                rfl rfl rfl rfl (fun o => rfl)
          · simp only [Option.some.injEq, Prod.mk.injEq] at h
            rw [← h.1, ← h.2, List.append_nil]
            exact hInv
        · simp only [Option.some.injEq, Prod.mk.injEq] at h
          rw [← h.1, ← h.2, List.append_nil]
          exact hInv
      · simp only [Option.some.injEq, Prod.mk.injEq] at h
        rw [← h.1, ← h.2]
        by_cases hcl : (st.hasTextContent || !st.toolCallsInProgress.isEmpty) = true
        · simp only [hcl, if_true]
          exact blockInv_open_close st evs _ _ _ _ hInv
        · have hcl2 : (st.hasTextContent || !st.toolCallsInProgress.isEmpty) = false :=
            Bool.eq_false_iff.mpr hcl
          have htl : st.toolCallsInProgress = [] := by
            have h2 := (Bool.or_eq_false_iff.mp hcl2).2
            simp only [Bool.not_eq_false'] at h2
            exact List.isEmpty_iff.mp h2
          simp only [hcl2, Bool.false_eq_true, if_false]
          exact blockInv_open_dup st evs _ _ _ _ hInv htl
    · exact absurd h (by simp)

lemma runToolCalls_inv (tcs : List Json) : ∀ (st st2 : AnthState) (evs2 : List AnthEvent),
    runToolCalls st tcs = some (st2, evs2) →
    ∀ evs, blockInv st evs → blockInv st2 (evs ++ evs2) := by
  induction tcs with
  | nil =>
    intro st st2 evs2 h evs hInv
    simp only [runToolCalls, Option.some.injEq, Prod.mk.injEq] at h
    rw [← h.1, ← h.2, List.append_nil]
    exact hInv
  | cons tc tcs ih =>
    intro st st2 evs2 h evs hInv
    simp only [runToolCalls] at h
    cases h1 : stepToolCall st tc with
    | none => rw [h1] at h; exact Option.noConfusion h
    | some p =>
      rw [h1] at h
      obtain ⟨st1, evsA⟩ := p
      simp only [Option.bind] at h
      cases h2 : runToolCalls st1 tcs with
      | none => rw [h2] at h; exact Option.noConfusion h
      | some q =>
        rw [h2] at h
        obtain ⟨stq, evsB⟩ := q
        simp only [Option.map, Option.some.injEq, Prod.mk.injEq] at h
        rw [← h.1, ← h.2, ← List.append_assoc]
        exact ih st1 stq evsB h2 (evs ++ evsA) (stepToolCall_inv st tc st1 evsA h1 evs hInv)

lemma textEvents_inv (st : AnthState) (delta : Json) (evs : List AnthEvent)
    (hInv : blockInv st evs) :
    blockInv (textEvents st delta).1 (evs ++ (textEvents st delta).2) := by
  unfold textEvents
  split
  · split
    · simpa using hInv
    · exact blockInv_append_neutral _ _ _
        (blockInv_preserve st _ evs hInv rfl (fun hh => hh)) rfl rfl rfl rfl (fun o => rfl)
  · simpa using hInv

lemma processChunk_inv (st : AnthState) (c : Json) (st2 : AnthState)
    (evs2 : List AnthEvent) (h : processChunk st c = some (st2, evs2))
    (evs : List AnthEvent) (hInv : blockInv st evs) :
    blockInv st2 (evs ++ evs2) := by
  have hInv0 : blockInv { st with usageData := captureAnthUsage st.usageData c } evs :=
    blockInv_preserve st _ evs hInv rfl (fun hh => hh)
  unfold processChunk at h
  split at h
  · simp only [Option.some.injEq, Prod.mk.injEq] at h
    rw [← h.1, ← h.2, List.append_nil]
    exact hInv0
  · rename_i c0 rest heq
    cases hc : asObj c0 with
    | none => rw [hc] at h; exact Option.noConfusion h
    | some choice =>
      rw [hc] at h
      simp only [Option.bind] at h
      by_cases hfr : goStr choice "finish_reason" = "tool_calls"
      · rw [if_pos hfr] at h
        have hInv1 : blockInv { { st with usageData := captureAnthUsage st.usageData c }
            with stopReason := "tool_use" } evs :=
          blockInv_preserve _ _ evs hInv0 rfl (fun hh => hh)
        split at h
        · split at h
          · simp only [Option.some.injEq] at h
            have h1 : (textEvents _ _).1 = st2 := congrArg Prod.fst h
            have h2 : (textEvents _ _).2 = evs2 := congrArg Prod.snd h
            rw [← h1, ← h2]
            exact textEvents_inv _ _ evs hInv1
          · cases hrt : runToolCalls (textEvents _ (goObj choice "delta")).1 _ with
            | none => rw [hrt] at h; exact Option.noConfusion h
            | some q =>
              rw [hrt] at h
              obtain ⟨stq, evsq⟩ := q
              simp only [Option.map, Option.some.injEq, Prod.mk.injEq] at h
              rw [← h.1, ← h.2, ← List.append_assoc]
              exact runToolCalls_inv _ _ stq evsq hrt _ (textEvents_inv _ _ evs hInv1)
        · simp only [Option.some.injEq] at h
          have h1 : (textEvents _ _).1 = st2 := congrArg Prod.fst h
          have h2 : (textEvents _ _).2 = evs2 := congrArg Prod.snd h
          rw [← h1, ← h2]
          exact textEvents_inv _ _ evs hInv1
      · rw [if_neg hfr] at h
        split at h
        · split at h
          · simp only [Option.some.injEq] at h
            have h1 : (textEvents _ _).1 = st2 := congrArg Prod.fst h
            have h2 : (textEvents _ _).2 = evs2 := congrArg Prod.snd h
            rw [← h1, ← h2]
            exact textEvents_inv _ _ evs hInv0
          · cases hrt : runToolCalls (textEvents _ (goObj choice "delta")).1 _ with
            | none => rw [hrt] at h; exact Option.noConfusion h
            | some q =>
              rw [hrt] at h
              obtain ⟨stq, evsq⟩ := q
              simp only [Option.map, Option.some.injEq, Prod.mk.injEq] at h
              rw [← h.1, ← h.2, ← List.append_assoc]
              exact runToolCalls_inv _ _ stq evsq hrt _ (textEvents_inv _ _ evs hInv0)
        · simp only [Option.some.injEq] at h
          have h1 : (textEvents _ _).1 = st2 := congrArg Prod.fst h
          have h2 : (textEvents _ _).2 = evs2 := congrArg Prod.snd h
          rw [← h1, ← h2]
          exact textEvents_inv _ _ evs hInv0

lemma runChunks_inv (chunks : List Json) : ∀ (st st2 : AnthState) (evs2 : List AnthEvent),
    runChunks st chunks = some (st2, evs2) →
    ∀ evs, blockInv st evs → blockInv st2 (evs ++ evs2) := by
  induction chunks with
  | nil =>
    intro st st2 evs2 h evs hInv
    simp only [runChunks, Option.some.injEq, Prod.mk.injEq] at h
    rw [← h.1, ← h.2, List.append_nil]
    exact hInv
  | cons c cs ih =>
    intro st st2 evs2 h evs hInv
    simp only [runChunks] at h
    cases h1 : processChunk st c with
    | none => rw [h1] at h; exact Option.noConfusion h
    | some p =>
      rw [h1] at h
      obtain ⟨st1, evsA⟩ := p
      simp only [Option.bind] at h
      cases h2 : runChunks st1 cs with
      | none => rw [h2] at h; exact Option.noConfusion h
      | some q =>
        rw [h2] at h
        obtain ⟨stq, evsB⟩ := q
        simp only [Option.map, Option.some.injEq, Prod.mk.injEq] at h
        rw [← h.1, ← h.2, ← List.append_assoc]
        exact ih st1 stq evsB h2 (evs ++ evsA) (processChunk_inv st c st1 evsA h1 evs hInv)

/-- C1 counterexample: an upstream response whose first choice carries a
non-empty tool_calls list but finish_reason "stop" converts to an Anthropic
document with stop_reason "end_turn", not "tool_use" — the finish_reason
mapping runs after the tool_use assignment and overwrites it. -/
theorem toolcalls_stop_reason_cex :
    (ConvertOpenAIResponseToAnthropic sampleIds sampleParse c1xResp "m").bind
      (fun d => d.get "stop_reason") = some (.str "end_turn") ∧
    ("end_turn" : String) ≠ "tool_use" :=
  ⟨rfl, by decide⟩

/-- C1 (amended): when choices[0].message carries a non-empty tool_calls
list, the converted document's stop_reason is "tool_use" only when
finish_reason is neither "stop" nor "length"; those two are mapped
afterwards (to "end_turn" and "max_tokens") and override the tool_use
assignment. -/
theorem toolcalls_stop_reason_amended (ids : Nat → String) (parse : String → Option Json)
    (resp : Json) (model : String) (doc choice : Json) (rest l : List Json)
    (hc : goArr resp "choices" = choice :: rest)
    (htc : (goObj choice "message").get "tool_calls" = some (.arr l))
    (hl : l ≠ [])
    (hconv : ConvertOpenAIResponseToAnthropic ids parse resp model = some doc) :
    doc.get "stop_reason" = some (.str (
      if goStr choice "finish_reason" = "stop" then "end_turn"
      else if goStr choice "finish_reason" = "length" then "max_tokens"
      else "tool_use")) := by
  have hle : l.isEmpty = false := by
    cases l with
    | nil => exact absurd rfl hl
    | cons a as => rfl
  cases choice with
  | null => exact Option.noConfusion htc
  | bool b => exact Option.noConfusion htc
  | num n => exact Option.noConfusion htc
  | str s => exact Option.noConfusion htc
  | arr xs => exact Option.noConfusion htc
  | obj cfs =>
    unfold ConvertOpenAIResponseToAnthropic at hconv
    rw [hc] at hconv
    simp only [asObj, Option.bind] at hconv
    rw [htc] at hconv
    simp only [hle, Bool.false_eq_true, if_false] at hconv
    cases htb : toolUseBlocks ids parse 0 l with
    | none => rw [htb] at hconv; exact Option.noConfusion hconv
    | some p =>
      rw [htb] at hconv
      obtain ⟨blocks, ctr⟩ := p
      simp only [Option.map, Option.some.injEq] at hconv
      rw [← hconv]
      show some (Json.str (stopReasonFor (Json.obj cfs))) = _
      unfold stopReasonFor
      simp [htc, hle]

/-- C1 witness: the amended statement applied to a concrete response with
one tool call and finish_reason "tool_calls", whose converted stop_reason
is "tool_use". -/
theorem toolcalls_stop_reason_amended_witness :
    goArr c1wResp "choices" = c1wChoice :: [] ∧
    (goObj c1wChoice "message").get "tool_calls" = some (.arr [Json.obj []]) ∧
    ([Json.obj []] : List Json) ≠ [] ∧
    ConvertOpenAIResponseToAnthropic sampleIds sampleParse c1wResp "m" = some c1wDoc ∧
    c1wDoc.get "stop_reason" = some (.str
      (if goStr c1wChoice "finish_reason" = "stop" then "end_turn"
       else if goStr c1wChoice "finish_reason" = "length" then "max_tokens"
       else "tool_use")) :=
  ⟨rfl, rfl, by simp, rfl,
   toolcalls_stop_reason_amended sampleIds sampleParse c1wResp "m" c1wDoc c1wChoice
     [] [Json.obj []] rfl rfl (by simp) rfl⟩

/-- C2 counterexample: when the first tool call starts before any text
delta, streamMessages emits a second content_block_start at index 0 without
closing the optimistic text block, so after the End sequence the counts of
content_block_start and content_block_stop differ. -/
theorem anthropic_block_counts_cex :
    streamMessagesEvents
      [.obj [("choices", .arr [.obj [("delta", .obj [("tool_calls",
        .arr [.obj [("index", .num 0), ("id", .str "call_1"),
                    ("function", .obj [("name", .str "f")])]])])]])]] =
      some [.messageStart, .contentBlockStartText 0, .contentBlockStartToolUse 0 "call_1" "f",
            .contentBlockStop 0, .messageDelta "end_turn" 0 0, .messageStop] ∧
    ¬ (nStarts [.messageStart, .contentBlockStartText 0, .contentBlockStartToolUse 0 "call_1" "f",
                .contentBlockStop 0, .messageDelta "end_turn" 0 0, .messageStop] =
       nStops [.messageStart, .contentBlockStartText 0, .contentBlockStartToolUse 0 "call_1" "f",
               .contentBlockStop 0, .messageDelta "end_turn" 0 0, .messageStop]) :=
  ⟨rfl, by decide⟩

/-- C2 (amended): for every chunk sequence that streamMessages processes
without panicking, the emitted content_block_stop indices are strictly
increasing and each equals the index of the closest preceding
content_block_start; at each chunk boundary there are one or two more
content_block_start than content_block_stop events (two exactly when the
first tool_use block opened while the optimistic text block was still
empty, which leaves the text block's start unmatched), and after the End
sequence the counts are equal or differ by one. -/
theorem anthropic_block_invariants_amended (chunks : List Json) (st : AnthState)
    (evs : List AnthEvent) (h : runChunks initAnthState chunks = some (st, evs)) :
    strictIncr (stopIdxs (startAnthEvents ++ evs ++ endAnthEvents st)) = true ∧
    stopsMatch none (startAnthEvents ++ evs ++ endAnthEvents st) = true ∧
    (nStarts (startAnthEvents ++ evs) = nStops (startAnthEvents ++ evs) + 1 ∨
     nStarts (startAnthEvents ++ evs) = nStops (startAnthEvents ++ evs) + 2) ∧
    (nStarts (startAnthEvents ++ evs ++ endAnthEvents st) =
       nStops (startAnthEvents ++ evs ++ endAnthEvents st) ∨
     nStarts (startAnthEvents ++ evs ++ endAnthEvents st) =
       nStops (startAnthEvents ++ evs ++ endAnthEvents st) + 1) := by
  have hstart : blockInv initAnthState startAnthEvents := by
    refine ⟨?_, rfl, rfl, rfl, Or.inl rfl⟩
    intro i hi
    simp [stopIdxs, startAnthEvents, startIdx] at hi
  obtain ⟨b1, b2, b3, b4, b5⟩ :=
    runChunks_inv chunks initAnthState st evs h startAnthEvents hstart
  have hstopsE : stopIdxs (endAnthEvents st) = [st.contentBlockIndex] := rfl
  refine ⟨?_, ?_, ?_, ?_⟩
  · rw [stopIdxs_append, hstopsE]
    exact strictIncr_append_lt _ _ b2 b1
  · rw [stopsMatch_append, b3, b4]
    simp [stopsMatch, startIdx, endAnthEvents]
  · exact b5.imp id And.left
  · rw [nStarts_append, nStops_append,
        show nStarts (endAnthEvents st) = 0 from rfl,
        show nStops (endAnthEvents st) = 1 from rfl]
    rcases b5 with hc | ⟨hc, _⟩
    · left; omega
    · right; omega

/-- C2 witness: the amended invariant applied to a single text chunk. -/
theorem anthropic_block_invariants_amended_witness :
    runChunks initAnthState c2wChunks = some (c2wState, c2wEvents) ∧
    (strictIncr (stopIdxs (startAnthEvents ++ c2wEvents ++ endAnthEvents c2wState)) = true ∧
     stopsMatch none (startAnthEvents ++ c2wEvents ++ endAnthEvents c2wState) = true ∧
     (nStarts (startAnthEvents ++ c2wEvents) = nStops (startAnthEvents ++ c2wEvents) + 1 ∨
      nStarts (startAnthEvents ++ c2wEvents) = nStops (startAnthEvents ++ c2wEvents) + 2) ∧
     (nStarts (startAnthEvents ++ c2wEvents ++ endAnthEvents c2wState) =
        nStops (startAnthEvents ++ c2wEvents ++ endAnthEvents c2wState) ∨
      nStarts (startAnthEvents ++ c2wEvents ++ endAnthEvents c2wState) =
        nStops (startAnthEvents ++ c2wEvents ++ endAnthEvents c2wState) + 1)) :=
  ⟨rfl, anthropic_block_invariants_amended c2wChunks c2wState c2wEvents rfl⟩

/-- C3 counterexample: a chunk whose first choice is JSON null makes the
per-chunk callback panic, so the stream is cut off with no closing
sequence at all (the same input also kills the Responses sequencer) —
framing is not guaranteed for every upstream behavior. -/
theorem stream_framing_cex :
    streamMessagesEvents [Json.obj [("choices", Json.arr [Json.null])]] = none ∧
    streamResponsesEvents [Json.obj [("choices", Json.arr [Json.null])]] = none :=
  ⟨rfl, rfl⟩

/-- C3 (amended): for every chunk sequence the per-chunk callback processes
without panicking — including the empty sequence and any truncation by a
transport error — streamMessages emits message_start, the optimistic
content_block_start, the accumulated middle events, and then
content_block_stop, message_delta, message_stop; streamResponses likewise
always closes with output_text.done, content_part.done, output_item.done
and response.completed built from whatever was accumulated. -/
theorem stream_framing_amended :
    (∀ chunks evs, streamMessagesEvents chunks = some evs →
      ∃ mid i sr o c, evs =
        [AnthEvent.messageStart, AnthEvent.contentBlockStartText 0] ++ mid ++
        [AnthEvent.contentBlockStop i, AnthEvent.messageDelta sr o c, AnthEvent.messageStop]) ∧
    (∀ chunks evs, streamResponsesEvents chunks = some evs →
      ∃ mid t u, evs =
        [RespEvent.responseCreated, RespEvent.outputItemAdded 0, RespEvent.contentPartAdded 0 0] ++ mid ++
        [RespEvent.outputTextDone 0 0 t, RespEvent.contentPartDone 0 0 t,
         RespEvent.outputItemDone 0 t, RespEvent.responseCompleted t u]) ∧
    streamMessagesEvents [] = some [.messageStart, .contentBlockStartText 0, .contentBlockStop 0,
      .messageDelta "end_turn" 0 0, .messageStop] ∧
    streamResponsesEvents [] = some [.responseCreated, .outputItemAdded 0, .contentPartAdded 0 0,
      .outputTextDone 0 0 "", .contentPartDone 0 0 "", .outputItemDone 0 "",
      .responseCompleted "" ⟨0, 0, 0, 0⟩] := by
  refine ⟨?_, ?_, rfl, rfl⟩
  · intro chunks evs h
    unfold streamMessagesEvents at h
    cases hr : runChunks initAnthState chunks with
    | none => rw [hr] at h; exact Option.noConfusion h
    | some p =>
      obtain ⟨st, evs1⟩ := p
      rw [hr] at h
      simp only [Option.map, Option.some.injEq] at h
      exact ⟨evs1, st.contentBlockIndex, st.stopReason, st.usageData.outputTokens,
             st.usageData.cacheReadTokens, h.symm⟩
  · intro chunks evs h
    unfold streamResponsesEvents at h
    cases hr : runResponsesChunks initRespState chunks with
    | none => rw [hr] at h; exact Option.noConfusion h
    | some p =>
      obtain ⟨st, evs1⟩ := p
      rw [hr] at h
      simp only [Option.map, Option.some.injEq] at h
      exact ⟨evs1, st.fullText, st.usageData, h.symm⟩

/-- C3 witness: the framing statement applied to the empty chunk sequence. -/
theorem stream_framing_amended_witness :
    streamMessagesEvents [] = some [.messageStart, .contentBlockStartText 0, .contentBlockStop 0,
      .messageDelta "end_turn" 0 0, .messageStop] ∧
    (∃ mid i sr o c,
      [AnthEvent.messageStart, .contentBlockStartText 0, .contentBlockStop 0,
       .messageDelta "end_turn" 0 0, .messageStop] =
      [AnthEvent.messageStart, AnthEvent.contentBlockStartText 0] ++ mid ++
      [AnthEvent.contentBlockStop i, AnthEvent.messageDelta sr o c, AnthEvent.messageStop]) :=
  ⟨rfl, stream_framing_amended.1 [] _ rfl⟩

/-- C4 counterexample: a chunk reporting completion_tokens -5 makes the
final message_delta carry output_tokens -5, so the emitted usage is not
non-negative for every chunk sequence. -/
theorem anthropic_usage_negative_cex :
    streamMessagesEvents [Json.obj [("usage", .obj [("completion_tokens", .num (-5))])]] =
      some [.messageStart, .contentBlockStartText 0, .contentBlockStop 0,
            .messageDelta "end_turn" (-5) 0, .messageStop] ∧
    ¬ (0 ≤ (-5 : Int)) :=
  ⟨rfl, by decide⟩

/-- C4 (amended): each usage counter of streamMessages is overwritten by
the last chunk value reporting it (0 when never reported) — never summed —
and the final message_delta carries exactly those final output and
cache-read counters, which are non-negative provided every value the
chunks report is non-negative. -/
theorem anthropic_usage_lastwrite_amended (chunks : List Json) (st : AnthState)
    (evs : List AnthEvent) (h : runChunks initAnthState chunks = some (st, evs)) :
    st.usageData.inputTokens = (lastReported repInputTokens chunks).getD 0 ∧
    st.usageData.outputTokens = (lastReported repOutputTokens chunks).getD 0 ∧
    st.usageData.cacheReadTokens = (lastReported repCachedTokens chunks).getD 0 ∧
    streamMessagesEvents chunks = some (startAnthEvents ++ evs ++
      [.contentBlockStop st.contentBlockIndex,
       .messageDelta st.stopReason st.usageData.outputTokens st.usageData.cacheReadTokens,
       .messageStop]) ∧
    ((∀ c ∈ chunks, ∀ v, repOutputTokens c = some v → 0 ≤ v) → 0 ≤ st.usageData.outputTokens) ∧
    ((∀ c ∈ chunks, ∀ v, repCachedTokens c = some v → 0 ≤ v) → 0 ≤ st.usageData.cacheReadTokens) := by
  have hu := runChunks_usageData chunks initAnthState st evs h
  have h1 : st.usageData.inputTokens = (lastReported repInputTokens chunks).getD 0 := by
    rw [hu, foldl_capture_inputTokens]
    rfl
  have h2 : st.usageData.outputTokens = (lastReported repOutputTokens chunks).getD 0 := by
    rw [hu, foldl_capture_outputTokens]
    rfl
  have h3 : st.usageData.cacheReadTokens = (lastReported repCachedTokens chunks).getD 0 := by
    rw [hu, foldl_capture_cacheReadTokens]
    rfl
  refine ⟨h1, h2, h3, ?_, ?_, ?_⟩
  · unfold streamMessagesEvents
    rw [h]
    rfl
  · intro hall
    rw [h2]
    cases hlr : lastReported repOutputTokens chunks with
    | none => simp
    | some v =>
      obtain ⟨c, hmem, hcv⟩ := lastReported_mem repOutputTokens chunks v hlr
      simpa using hall c hmem v hcv
  · intro hall
    rw [h3]
    cases hlr : lastReported repCachedTokens chunks with
    | none => simp
    | some v =>
      obtain ⟨c, hmem, hcv⟩ := lastReported_mem repCachedTokens chunks v hlr
      simpa using hall c hmem v hcv

/-- C4 witness: the amended statement applied to one chunk reporting
completion_tokens 3. -/
theorem anthropic_usage_lastwrite_amended_witness :
    runChunks initAnthState c4wChunks = some (c4wState, []) ∧
    (c4wState.usageData.inputTokens = (lastReported repInputTokens c4wChunks).getD 0 ∧
     c4wState.usageData.outputTokens = (lastReported repOutputTokens c4wChunks).getD 0 ∧
     c4wState.usageData.cacheReadTokens = (lastReported repCachedTokens c4wChunks).getD 0 ∧
     streamMessagesEvents c4wChunks = some (startAnthEvents ++ [] ++
       [.contentBlockStop c4wState.contentBlockIndex,
        .messageDelta c4wState.stopReason c4wState.usageData.outputTokens
          c4wState.usageData.cacheReadTokens,
        .messageStop]) ∧
     ((∀ c ∈ c4wChunks, ∀ v, repOutputTokens c = some v → 0 ≤ v) →
        0 ≤ c4wState.usageData.outputTokens) ∧
     ((∀ c ∈ c4wChunks, ∀ v, repCachedTokens c = some v → 0 ≤ v) →
        0 ≤ c4wState.usageData.cacheReadTokens)) :=
  ⟨rfl, anthropic_usage_lastwrite_amended c4wChunks c4wState [] rfl⟩

/-- C5 counterexample: a system-role message whose block-list content
yields no parts is dropped entirely by ConvertAnthropicToCopilotMessages,
rather than being emitted with null content as the claim states. -/
theorem other_role_empty_dropped_cex :
    ConvertAnthropicToCopilotMessages sampleIds
      [Json.obj [("role", .str "system"), ("content", .arr [])]] "" = [] := rfl

/-- C5 (amended): an input message whose role is neither assistant nor user
and whose content is a block list is emitted with the assistant collapse
rule only when at least one content part results; when the block list
yields no parts the message is dropped (no null-content message is
emitted, unlike the assistant case). -/
theorem other_role_collapse_amended (ids : Nat → String) (ctr : Nat) (role : String)
    (blocks : List Json) (h1 : role ≠ "assistant") (h2 : role ≠ "user") :
    (convertAnthropicMessage ids ctr (Json.obj [("role", .str role), ("content", .arr blocks)])).1 =
      (if (contentPartsOf blocks).isEmpty then []
       else [mkMsg role (collapseParts (contentPartsOf blocks))]) := by
  have hred : (convertAnthropicMessage ids ctr
      (Json.obj [("role", .str role), ("content", .arr blocks)])).1
      = assembleAnthropicMessage role
          (blocks.foldl (processBlock ids) ⟨[], [], [], ctr⟩) := rfl
  rw [hred, assembleAnthropicMessage_other role _ h1 h2, foldl_processBlock_openaiContent]
  simp

/-- C5 witness: the amended statement applied to a system-role message with
one text block. -/
theorem other_role_collapse_amended_witness :
    (("system" : String) ≠ "assistant" ∧ ("system" : String) ≠ "user") ∧
    (convertAnthropicMessage sampleIds 0
      (Json.obj [("role", .str "system"), ("content", .arr c5wBlocks)])).1 =
      (if (contentPartsOf c5wBlocks).isEmpty then []
       else [mkMsg "system" (collapseParts (contentPartsOf c5wBlocks))]) :=
  ⟨⟨by decide, by decide⟩,
   other_role_collapse_amended sampleIds 0 "system" c5wBlocks (by decide) (by decide)⟩

/-- C6: the normalizer and the tool converter are total Lean functions by
construction, and the four sample inputs of the claim all evaluate to
defined values: nil normalizes to the empty string, the empty list to an
empty part array, a bogus-typed item to its JSON-stringified text part
(collapsed to a bare string), and an empty tool map is dropped. -/
theorem normalizer_totality_samples :
    NormalizeContentForCopilot Json.null = .str "" ∧
    NormalizeContentForCopilot (.arr []) = .arr [] ∧
    NormalizeContentForCopilot (.arr [.obj [("type", .str "bogus")]]) =
      .str "\x7b\"type\":\"bogus\"\x7d" ∧
    ConvertAnthropicTools [.obj []] = [] :=
  ⟨rfl, rfl, rfl, rfl⟩

/-- C7: for every user-role message with block-list content, each
tool_result block becomes its own tool-role message carrying the result's
tool_use_id and the flattened content string, and all those tool messages
precede the single user content message, which is emitted only when
non-empty parts exist. -/
theorem user_tool_results_order (ids : Nat → String) (ctr : Nat) (blocks : List Json) :
    (convertAnthropicMessage ids ctr (Json.obj [("role", .str "user"), ("content", .arr blocks)])).1 =
      (toolResultsOf blocks).map (fun tr =>
        Json.obj [("role", .str "tool"), ("tool_call_id", .str tr.1), ("content", .str tr.2)]) ++
      (if (contentPartsOf blocks).isEmpty then []
       else [mkMsg "user" (collapseParts (contentPartsOf blocks))]) := by
  have hred : (convertAnthropicMessage ids ctr
      (Json.obj [("role", .str "user"), ("content", .arr blocks)])).1
      = assembleAnthropicMessage "user"
          (blocks.foldl (processBlock ids) ⟨[], [], [], ctr⟩) := rfl
  rw [hred, assembleAnthropicMessage_user, foldl_processBlock_toolResults,
      foldl_processBlock_openaiContent]
  simp

/-- C8: ConvertOpenAIResponseToAnthropic is not total: a non-empty choices
list whose first element is not an object, or a tool_calls entry that is
not an object, makes it panic (modelled as `none`), while the normalizer
returns a defined value on the analogous degenerate input. -/
theorem convert_openai_response_panics :
    ConvertOpenAIResponseToAnthropic sampleIds sampleParse
      (.obj [("choices", .arr [.null])]) "m" = none ∧
    ConvertOpenAIResponseToAnthropic sampleIds sampleParse
      (.obj [("choices", .arr [.obj [("message", .obj [("tool_calls", .arr [.null])])]])]) "m" = none ∧
    NormalizeContentForCopilot (.arr [.null]) = .arr [] :=
  ⟨rfl, rfl, rfl⟩

/-- C9: the chunk sequence producing text "Hel" then "lo" then finish_reason
"stop" makes streamMessages emit exactly message_start,
content_block_start(0), content_block_delta(0,"Hel"),
content_block_delta(0,"lo"), content_block_stop(0),
message_delta(end_turn), message_stop. -/
theorem anthropic_stream_scenario_c :
    streamMessagesEvents
      [.obj [("choices", .arr [.obj [("delta", .obj [("content", .str "Hel")])]])],
       .obj [("choices", .arr [.obj [("delta", .obj [("content", .str "lo")])]])],
       .obj [("choices", .arr [.obj [("delta", .obj []), ("finish_reason", .str "stop")]])]] =
      some [.messageStart, .contentBlockStartText 0, .contentBlockDeltaText 0 "Hel",
            .contentBlockDeltaText 0 "lo", .contentBlockStop 0,
            .messageDelta "end_turn" 0 0, .messageStop] := rfl

/-- C10: extractUsage is a pure field mapping: every response value yields
the fixed shape with the six integer fields, and a response with no usage
object or a completely empty one yields all zeros. -/
theorem extractUsage_total_shape :
    (∀ resp : Json, ∃ a b c d e f : Int, extractUsage resp = usageJson a b c d e f) ∧
    extractUsage (.obj []) = usageJson 0 0 0 0 0 0 ∧
    extractUsage (.obj [("usage", .obj [])]) = usageJson 0 0 0 0 0 0 :=
  ⟨fun _ => ⟨_, _, _, _, _, _, rfl⟩, rfl, rfl⟩
